import Mathlib

/-!
Verification of the white-space disk-hygiene engine against its
natural-language specification.  The Rust source under src/src-tauri is
shallowly embedded: timestamps become integers (chrono instants compare
like their RFC3339 strings), SQLite tables become lists of rows, and the
filesystem becomes a list of existing paths.  Floating-point scores of the
selector are abstracted into a scorer parameter; everything else is
translated function by function.
-/

namespace WhiteSpace

/-- Timestamps (chrono DateTime of Utc / RFC3339 strings): modelled as
integers; comparison of equal-format RFC3339 UTC strings is chronological. -/
abbrev Time := Int

/-- Row of the files table (models.rs File; id is Option of i64 in Rust but
every row read back from the database carries Some, so we keep a plain
integer and the unwrap_or(0) calls in the selector become the identity). -/
structure FileRow where
  id : Int
  path : String
  parentDir : String
  mime : Option String
  sizeBytes : Int
  createdAt : Time
  modifiedAt : Option Time
  accessedAt : Option Time
  lastOpenedAt : Option Time
  partialSha1 : Option String
  sha1 : Option String
  firstSeenAt : Time
  lastSeenAt : Time
  isDeleted : Bool
  isStaged : Bool
  cooloffUntil : Option Time
  deriving Repr, DecidableEq

/-- models.rs NewFile: the scanner's upsert payload. -/
structure NewFile where
  path : String
  parentDir : String
  mime : Option String
  sizeBytes : Int
  createdAt : Option Time
  modifiedAt : Option Time
  accessedAt : Option Time
  partialSha1 : Option String
  sha1 : Option String
  deriving Repr, DecidableEq

/-- models.rs ActionType. -/
inductive ActionKind where
  | archive
  | delete
  | restore
  deriving Repr, DecidableEq

/-- Row of the actions table (models.rs Action; src/dst as stored). -/
structure Action where
  id : Option Int
  fileId : Int
  kind : ActionKind
  batchId : String
  srcPath : Option String
  dstPath : Option String
  origin : Option String
  note : Option String
  createdAt : Time
  deriving Repr, DecidableEq

/-- Row of the staged_files table (models.rs StagedFileRecord). -/
structure StagedRow where
  id : Int
  fileId : Int
  stagedAt : Time
  expiresAt : Option Time
  batchId : Option String
  status : String
  note : Option String
  deriving Repr, DecidableEq

/-- The index store: files, actions and staged_files tables. -/
structure Db where
  files : List FileRow
  actions : List Action
  staged : List StagedRow
  deriving Repr, DecidableEq

/-! ## Upsert by path (db/database.rs upsert_file) -/

/-- The ON CONFLICT(path) DO UPDATE arm of upsert_file: overwrites
parent_dir, mime, size_bytes, modified_at, accessed_at, partial_sha1;
sha1 = COALESCE(excluded.sha1, files.sha1); last_seen_at = now;
is_deleted = 0.  Everything else (id, path, created_at, last_opened_at,
first_seen_at, is_staged, cooloff_until) is untouched. -/
def applyUpsertUpdate (now : Time) (f : NewFile) (r : FileRow) : FileRow :=
  { r with
    parentDir := f.parentDir
    mime := f.mime
    sizeBytes := f.sizeBytes
    modifiedAt := f.modifiedAt
    accessedAt := f.accessedAt
    partialSha1 := f.partialSha1
    sha1 := match f.sha1 with
      | some s => some s
      | none => r.sha1
    lastSeenAt := now
    isDeleted := false }

/-- The INSERT arm of upsert_file: created_at = file.created_at.unwrap_or(now),
last_opened_at = NULL, first_seen_at = last_seen_at = now, is_deleted = 0;
is_staged and cooloff_until take the column defaults 0 and NULL. -/
def insertUpsertRow (now : Time) (newId : Int) (f : NewFile) : FileRow :=
  { id := newId
    path := f.path
    parentDir := f.parentDir
    mime := f.mime
    sizeBytes := f.sizeBytes
    createdAt := f.createdAt.getD now
    modifiedAt := f.modifiedAt
    accessedAt := f.accessedAt
    lastOpenedAt := none
    partialSha1 := f.partialSha1
    sha1 := f.sha1
    firstSeenAt := now
    lastSeenAt := now
    isDeleted := false
    isStaged := false
    cooloffUntil := none }

/-- db/database.rs upsert_file: INSERT ... ON CONFLICT(path) DO UPDATE over
the files table (path is UNIQUE, so the conflict arm rewrites the rows whose
path equals the payload's path). -/
def upsertFile (now : Time) (newId : Int) (f : NewFile) (files : List FileRow) :
    List FileRow :=
  if files.any (fun r => r.path = f.path) then
    files.map (fun r => if r.path = f.path then applyUpsertUpdate now f r else r)
  else
    files ++ [insertUpsertRow now newId f]

/-- First row of the files table at a given path (SQL lookup by the unique
path key). -/
def findRow (files : List FileRow) (p : String) : Option FileRow :=
  files.find? (fun r => r.path = p)

/-! ## Reconciliation (db/database.rs mark_missing_for_root) -/

/-- ASCII case folding: SQLite's default LIKE is case-insensitive for the
ASCII range only. -/
def asciiLowerChar (c : Char) : Char :=
  if 'A' ≤ c ∧ c ≤ 'Z' then Char.ofNat (c.toNat + 32) else c

/-- SQL LIKE matching over character lists: percent matches any sequence,
underscore matches any single character, other characters match up to ASCII
case folding.  The root passed by mark_missing_for_root is not escaped, so
wildcard characters inside the root stay wildcards. -/
def likeMatchL : List Char → List Char → Bool
  | [], t => t.isEmpty
  | '%' :: ps, t => t.tails.any (fun s => likeMatchL ps s)
  | '_' :: ps, t =>
      match t with
      | [] => false
      | _ :: ts => likeMatchL ps ts
  | c :: ps, t =>
      match t with
      | [] => false
      | d :: ts => (asciiLowerChar c = asciiLowerChar d) && likeMatchL ps ts

/-- SQL LIKE on strings. -/
def likeMatch (pat text : String) : Bool :=
  likeMatchL pat.data text.data

/-- String suffix test, computed on the character list. -/
def strEndsWith (s suf : String) : Bool :=
  suf.data.isSuffixOf s.data

/-- Character membership in a string, computed on the character list. -/
def strContainsChar (s : String) (c : Char) : Bool :=
  s.data.contains c

/-- db/database.rs root_like_pattern. -/
def rootLikePattern (root : String) : String :=
  if strEndsWith root "/" || strEndsWith root "\\" then root ++ "%"
  else if strContainsChar root '\\' then root ++ "\\%"
  else root ++ "/%"

/-- The UPDATE applied to a missing row: is_deleted = 1, is_staged = 0,
cooloff_until = NULL. -/
def tombstoneRow (r : FileRow) : FileRow :=
  { r with isDeleted := true, isStaged := false, cooloffUntil := none }

/-- The SELECT filter of mark_missing_for_root: live rows whose path
matches the LIKE pattern and is not among the seen paths. -/
def missingCond (root : String) (seen : List String) (r : FileRow) : Bool :=
  likeMatch (rootLikePattern root) r.path && !r.isDeleted && !(decide (r.path ∈ seen))

/-- db/database.rs mark_missing_for_root: collect the ids of the missing
rows, tombstone each of them and delete their staged_files records. -/
def markMissingForRoot (root : String) (seen : List String) (db : Db) : Db :=
  let missingIds := (db.files.filter (missingCond root seen)).map (fun r => r.id)
  { db with
    files := db.files.map (fun r => if r.id ∈ missingIds then tombstoneRow r else r)
    staged := db.staged.filter (fun s => !(decide (s.fileId ∈ missingIds))) }

/-- Path containment in the words of the spec: path-prefix match with OS
separator semantics (root plus a path separator is a literal prefix of the
path). -/
def specUnderRoot (root path : String) : Prop :=
  (root ++ "/").data.isPrefixOf path.data = true
  ∨ (root ++ "\\").data.isPrefixOf path.data = true

/-- Claim C7 as stated, for one invocation of the reconciliation: live rows
under the root (spec prefix semantics) not in the seen set come out
tombstoned, unstaged, without cool-off; rows whose path is in the seen set
come out with tombstone=false; rows not under the root are unchanged. -/
def reconcileClaimHolds (root : String) (seen : List String) (db : Db) : Prop :=
  (∀ r ∈ db.files, r.isDeleted = false → specUnderRoot root r.path →
      r.path ∉ seen →
      ∀ r' ∈ (markMissingForRoot root seen db).files, r'.id = r.id →
        r'.isDeleted = true ∧ r'.isStaged = false ∧ r'.cooloffUntil = none)
  ∧ (∀ r' ∈ (markMissingForRoot root seen db).files,
      r'.path ∈ seen → r'.isDeleted = false)
  ∧ (∀ r ∈ db.files, ¬ specUnderRoot root r.path →
      r ∈ (markMissingForRoot root seen db).files)

/-! ## Undo engine (ops/undo.rs) -/

/-- Filesystem abstraction: the list of currently existing paths. -/
abbrev Fs := List String

/-- ops/undo.rs restore_from_archive and restore_from_trash (their bodies
are identical): the action's dst_path is where the file now sits (archive
or trash) and its src_path is the original location.  Error if the original
location is already occupied, error if the archived copy is gone, else move
the file back (parent creation is a no-op in this model and fs::rename
succeeds when the source exists).  reverse_action rejects restore
actions.  none models the error returns. -/
def reverseAction (a : Action) (fs : Fs) : Option Fs :=
  match a.kind with
  | .restore => none
  | _ =>
      match a.dstPath, a.srcPath with
      | some archived, some original =>
          if original ∈ fs then none
          else if archived ∉ fs then none
          else some (original :: fs.erase archived)
      | _, _ => none

/-- ops/undo.rs was_action_successful: tests whether the action's recorded
destination currently exists. -/
def wasActionSuccessful (a : Action) (fs : Fs) : Bool :=
  match a.dstPath with
  | some d => decide (d ∈ fs)
  | none => false

/-- ops/undo.rs rollback_batch: for every action of the batch deemed
successful by was_action_successful, run reverse_action again and ignore
its failures. -/
def rollbackBatch (actions : List Action) (fs : Fs) : Fs :=
  actions.foldl
    (fun fs a =>
      if wasActionSuccessful a fs then
        match reverseAction a fs with
        | some fs' => fs'
        | none => fs
      else fs)
    fs

/-- Loop state of ops/undo.rs undo_batch / undo_last. -/
structure UndoState where
  fs : Fs
  actionsReversed : Nat
  filesRestored : Nat
  errors : Nat
  rollbackPerformed : Bool
  deriving Repr, DecidableEq

/-- ops/undo.rs undo_batch main loop (undo_last is identical after batch
lookup; the supported-kind precheck passes for archive and delete batches):
reverse each action in order; on the first failure run rollback_batch over
the whole batch and set the flag, then keep iterating the remaining
actions. -/
def undoBatch (actions : List Action) (fs0 : Fs) : UndoState :=
  actions.foldl
    (fun st a =>
      match reverseAction a st.fs with
      | some fs' =>
          { st with
            fs := fs'
            actionsReversed := st.actionsReversed + 1
            filesRestored := st.filesRestored + 1 }
      | none =>
          if st.rollbackPerformed then { st with errors := st.errors + 1 }
          else
            { st with
              fs := rollbackBatch actions st.fs
              errors := st.errors + 1
              rollbackPerformed := true })
    { fs := fs0, actionsReversed := 0, filesRestored := 0, errors := 0,
      rollbackPerformed := false }

/-- The batch of claim C1: two archive actions of one batch.  File 1 was
archived from o1 to d1, file 2 from o2 to d2. -/
def actC1a : Action :=
  { id := some 1, fileId := 1, kind := .archive, batchId := "archive_100",
    srcPath := some "o1", dstPath := some "d1", origin := none, note := none,
    createdAt := 100 }

/-- Second member of the C1 batch. -/
def actC1b : Action :=
  { id := some 2, fileId := 2, kind := .archive, batchId := "archive_100",
    srcPath := some "o2", dstPath := some "d2", origin := none, note := none,
    createdAt := 100 }

/-- Pre-restore filesystem of claim C1: both archived copies exist and the
original location of file 2 is occupied again, so reversing file 2 fails. -/
def fsC1 : Fs := ["d1", "d2", "o2"]

/-! ## Batch introspection (db/database.rs get_undoable_batches) -/

/-- Archive and delete are the kinds the undo layer accepts. -/
def isUndoableKind (k : ActionKind) : Bool :=
  match k with
  | .archive => true
  | .delete => true
  | .restore => false

/-- SELECT DISTINCT: keep the first occurrence of each batch id. -/
def dedupKeepFirstAux (seen : List String) : List String → List String
  | [] => []
  | b :: rest =>
      if b ∈ seen then dedupKeepFirstAux seen rest
      else b :: dedupKeepFirstAux (b :: seen) rest

/-- One linearization of the action rows by created_at descending.  The
query's ORDER BY references created_at, a column absent from the DISTINCT
result set, so SQLite orders the distinct ids by an arbitrary
representative row per id: the actual output order is an implementation
artifact, not a function of the table contents.  This sort is therefore
only one possible scan order, used to fix a concrete executable instance;
every property claimed of the query below is proved for all scan orders. -/
def sortActionsNewestFirst (l : List Action) : List Action :=
  l.mergeSort (fun a b => decide (b.createdAt ≤ a.createdAt))

/-- db/database.rs get_undoable_batches, parameterized by the row order the
query scans: SELECT DISTINCT batch_id FROM actions WHERE action IN
(archive, delete), keeping the first occurrence of each batch id in the
scanned order.  There is no condition on later restore actions. -/
def getUndoableBatchesFrom (ordered : List Action) : List String :=
  dedupKeepFirstAux []
    ((ordered.filter (fun a => isUndoableKind a.kind)).map (fun a => a.batchId))

/-- db/database.rs get_undoable_batches at one concrete scan order (the
output order of the real query is implementation-defined; only membership
and distinctness are defined behavior, and the theorems assert only
those, for every scan order). -/
def getUndoableBatches (actions : List Action) : List String :=
  getUndoableBatchesFrom (sortActionsNewestFirst actions)

/-- The spec's exclusion clause for claim C4: no restore action later than a
member archive/delete action of the batch references the same file id. -/
def specNoLaterRestore (actions : List Action) (b : String) : Prop :=
  ¬ ∃ r ∈ actions, r.kind = ActionKind.restore ∧
      ∃ a ∈ actions, a.batchId = b ∧ isUndoableKind a.kind = true ∧
        r.fileId = a.fileId ∧ a.createdAt < r.createdAt

/-- Claim C4 as stated, at one action log: every enumerated batch id has an
archive/delete member and no later restore of the same file ids. -/
def undoableClaimHolds (actions : List Action) : Prop :=
  ∀ b, b ∈ getUndoableBatches actions →
    (∃ a ∈ actions, isUndoableKind a.kind = true ∧ a.batchId = b)
    ∧ specNoLaterRestore actions b

/-- Action log of the C4 counterexample: batch b1 archives file 1, then a
later restore action references file 1. -/
def actC4a : Action :=
  { id := some 1, fileId := 1, kind := .archive, batchId := "b1",
    srcPath := some "o", dstPath := some "d", origin := none, note := none,
    createdAt := 1 }

/-- The later restore action of the C4 counterexample. -/
def actC4r : Action :=
  { id := some 2, fileId := 1, kind := .restore, batchId := "b1",
    srcPath := some "d", dstPath := some "o", origin := none, note := none,
    createdAt := 2 }

/-- The C4 counterexample action log. -/
def actsC4 : List Action := [actC4a, actC4r]

/-! ## Batch id generation (ops/archive.rs and ops/delete.rs) -/

/-- ops/archive.rs generate_batch_id: the literal prefix and the current
Unix time in milliseconds printed in decimal. -/
def generateArchiveBatchId (millis : Nat) : String :=
  "archive_" ++ Nat.repr millis

/-- ops/delete.rs generate_batch_id. -/
def generateDeleteBatchId (millis : Nat) : String :=
  "delete_" ++ Nat.repr millis

/-- Numeric value of a decimal digit character. -/
def digitVal (c : Char) : Nat := c.toNat - 48

/-- Value of a most-significant-first decimal digit string. -/
def decValue (l : List Char) : Nat :=
  l.foldl (fun a c => a * 10 + digitVal c) 0

/-- Claim C8 as stated: batch ids of successive operations are distinct and
a later batch's id orders after an earlier batch's id (id strings compared
lexicographically on their character sequences, as Rust string ordering
does for this ASCII alphabet). -/
def batchIdClaimHolds : Prop :=
  ∀ t₁ t₂ : Nat, t₁ < t₂ →
    generateArchiveBatchId t₁ ≠ generateArchiveBatchId t₂
    ∧ (generateArchiveBatchId t₁).data < (generateArchiveBatchId t₂).data
    ∧ generateDeleteBatchId t₁ ≠ generateDeleteBatchId t₂
    ∧ (generateDeleteBatchId t₁).data < (generateDeleteBatchId t₂).data

/-! ## Gauge staged_window (gauge.rs compute_staged_week) -/

/-- Rust's `as u64` cast of an i64 size, then read as a natural number
(sizes are non-negative in practice; negatives would wrap). -/
def sizeU (i : Int) : Nat := (i % 18446744073709551616).toNat

/-- db/database.rs get_files_archived_in_period: files joined with their
archive actions whose created_at lies between the window bounds (one output
row per matching file-action pair; RFC3339 string comparison is
chronological). -/
def getFilesArchivedInPeriod (db : Db) (ws we : Time) : List FileRow :=
  ((db.actions.filter (fun a =>
      decide (a.kind = ActionKind.archive) && decide (ws ≤ a.createdAt)
        && decide (a.createdAt ≤ we))).map
    (fun a => db.files.filter (fun f => decide (f.id = a.fileId)))).flatten

/-- gauge.rs has_delete_action_after_archive: the body is a placeholder
that returns false unconditionally. -/
def hasDeleteActionAfterArchive (_db : Db) (_f : FileRow) (_ws _we : Time) : Bool :=
  false

/-- gauge.rs compute_staged_week: sum the sizes of the files archived in
the window, skipping files with a later delete action (never skipped, since
the check is a false placeholder). -/
def computeStagedWeek (db : Db) (ws we : Time) : Nat :=
  ((getFilesArchivedInPeriod db ws we).filter
      (fun f => !(hasDeleteActionAfterArchive db f ws we))).foldl
    (fun acc f => acc + sizeU f.sizeBytes) 0

/-- db/database.rs list_current_staged_files_in_period: files joined with
their staged record where status = staged and staged_at lies in the
window. -/
def listCurrentStagedFilesInPeriod (db : Db) (ws we : Time) : List FileRow :=
  ((db.staged.filter (fun s =>
      decide (s.status = "staged") && decide (ws ≤ s.stagedAt)
        && decide (s.stagedAt ≤ we))).map
    (fun s => db.files.filter (fun f => decide (f.id = s.fileId)))).flatten

/-- The staged_window value the spec defines: sum of sizes of files whose
staged record currently has status staged and staged_at in the window. -/
def specStagedWindow (db : Db) (ws we : Time) : Nat :=
  (listCurrentStagedFilesInPeriod db ws we).foldl
    (fun acc f => acc + sizeU f.sizeBytes) 0

/-! ## Archive of a single file (ops/archive.rs) -/

/-- Failure oracle for the filesystem calls of archive_single_file:
whether the same-volume rename succeeds, whether the cross-volume copy
succeeds, and whether the removal of the source after a verified copy
succeeds. -/
structure ArchiveEnv where
  renameOk : Bool
  copyOk : Bool
  removeOk : Bool
  deriving Repr, DecidableEq

/-- Split a character list at a separator (used to model std Path
component handling for ordinary slash-separated paths). -/
def splitChar (sep : Char) (l : List Char) : List (List Char) :=
  l.foldr
    (fun c acc =>
      match acc with
      | [] => if c = sep then [[], []] else [[c]]
      | seg :: rest => if c = sep then [] :: seg :: rest else (c :: seg) :: rest)
    [[]]

/-- Path::file_name: the last non-empty slash-separated component. -/
def fileNameOf (s : String) : Option (List Char) :=
  ((splitChar '/' s.data).filter (fun seg => !seg.isEmpty)).getLast?

/-- Join path segments back with slashes. -/
def joinSegs : List (List Char) → List Char
  | [] => []
  | [seg] => seg
  | seg :: rest => seg ++ '/' :: joinSegs rest

/-- Path::new(p).parent() as used by update_file_location, modelled for
ordinary slash-separated paths: drop the last component. -/
def parentDirOf (s : String) : String :=
  match (splitChar '/' s.data).dropLast with
  | [] => ""
  | segs => String.mk (joinSegs segs)

/-- Path::file_stem and Path::extension: split the file name at its last
dot, provided the dot is not the leading character. -/
def stemExt (nm : List Char) : List Char × Option (List Char) :=
  match nm.reverse.dropWhile (fun c => !(c = '.')) with
  | [] => (nm, none)
  | _ :: [] => (nm, none)
  | _ :: restRev =>
      (restRev.reverse, some (nm.reverse.takeWhile (fun c => !(c = '.'))).reverse)

/-- The " (n)" conflict name: stem, space, parenthesised counter, then the
dotted extension when present. -/
def conflictName (stem : List Char) (ext : Option (List Char)) (n : Nat) : List Char :=
  stem ++ (" (".data) ++ (Nat.repr n).data ++ (")".data) ++
    (match ext with
     | some e => '.' :: e
     | none => [])

/-- The while-loop of archive_single_file: try counters 1, 2, ... until a
destination name does not exist.  The counter names are pairwise distinct,
so fs.length + 1 attempts always suffice; the fuel only bounds the
recursion. -/
def findFreeName (fs : Fs) (dir : String) (stem : List Char)
    (ext : Option (List Char)) : Nat → Nat → Option String
  | _, 0 => none
  | n, fuel + 1 =>
      let cand := dir ++ "/" ++ String.mk (conflictName stem ext n)
      if cand ∈ fs then findFreeName fs dir stem ext (n + 1) fuel else some cand

/-- Destination resolution of archive_single_file: the archive directory
joined with the file name, renamed with " (n)" while taken. -/
def resolveDest (fs : Fs) (archiveDir source : String) : Option String :=
  match fileNameOf source with
  | none => none
  | some nm =>
      let first := archiveDir ++ "/" ++ String.mk nm
      if first ∈ fs then
        let se := stemExt nm
        findFreeName fs archiveDir se.1 se.2 1 (fs.length + 1)
      else some first

/-- The action row written by ops/archive.rs log_archive_action. -/
def newArchiveAction (now : Time) (fid : Int) (source dest batchId : String) : Action :=
  { id := none, fileId := fid, kind := .archive, batchId := batchId,
    srcPath := some source, dstPath := some dest,
    origin := some "archive_manager", note := none, createdAt := now }

/-- db/database.rs update_file_location: rewrite path and parent_dir of the
row with the given id. -/
def updateFileLocation (db : Db) (fid : Int) (newPath : String) : Db :=
  { db with files := db.files.map (fun r =>
      if r.id = fid then { r with path := newPath, parentDir := parentDirOf newPath }
      else r) }

/-- ops/archive.rs log_archive_action: look up the file id by the source
path, insert the archive action, then update the recorded location.  none
models the lookup failure (file not in the database). -/
def logArchiveAction (now : Time) (source dest batchId : String) (db : Db) :
    Option Db :=
  match (db.files.find? (fun r => r.path = source)).map (fun r => r.id) with
  | none => none
  | some fid =>
      some (updateFileLocation
        { db with actions := db.actions ++ [newArchiveAction now fid source dest batchId] }
        fid dest)

/-- Result of one archive_single_file call: success flag, filesystem and
store afterwards. -/
structure ArchiveStepResult where
  ok : Bool
  fs : Fs
  db : Db
  deriving Repr, DecidableEq

/-- ops/archive.rs archive_single_file: resolve a conflict-free
destination; try fs::rename, falling back to copy + fsync + size-verify +
delete; only after the move succeeded call log_archive_action.  Every
failure path leaves the store untouched. -/
def archiveSingleFile (env : ArchiveEnv) (now : Time)
    (source archiveDir batchId : String) (fs : Fs) (db : Db) : ArchiveStepResult :=
  match resolveDest fs archiveDir source with
  | none => ⟨false, fs, db⟩
  | some dest =>
      if env.renameOk && decide (source ∈ fs) then
        match logArchiveAction now source dest batchId db with
        | none => ⟨false, dest :: fs.erase source, db⟩
        | some db' => ⟨true, dest :: fs.erase source, db'⟩
      else if env.copyOk && decide (source ∈ fs) then
        if env.removeOk then
          match logArchiveAction now source dest batchId db with
          | none => ⟨false, dest :: fs.erase source, db⟩
          | some db' => ⟨true, dest :: fs.erase source, db'⟩
        else ⟨false, dest :: fs, db⟩
      else ⟨false, fs, db⟩

/-- The move of archive_single_file completes iff the source exists and
either the rename or the whole copy-verify-delete fallback succeeds. -/
def moveSucceeded (env : ArchiveEnv) (source : String) (fs : Fs) : Bool :=
  (env.renameOk || (env.copyOk && env.removeOk)) && decide (source ∈ fs)

/-! ## Hashing (scanner/hash.rs)

hash_first_n opens the file, performs one read of up to n bytes into the
buffer and feeds exactly buffer[..read] to the SHA-1 hasher; for a regular
file the read returns min(n, file length) bytes.  The sha1 crate is
embedded below as the standard SHA-1 algorithm (FIPS 180), producing the
lowercase hex digest that the {:x} formatting of the digest bytes would. -/

/-- Reduce to a 32-bit word. -/
def w32 (n : Nat) : Nat := n % 4294967296

/-- 32-bit left rotation. -/
def rotl32 (k w : Nat) : Nat :=
  ((w <<< k) % 4294967296) ||| (w >>> (32 - k))

/-- The SHA-1 round function (choose / parity / majority / parity). -/
def sha1F (i b c d : Nat) : Nat :=
  if i < 20 then Nat.lor (Nat.land b c) (Nat.land (Nat.xor b 4294967295) d)
  else if i < 40 then Nat.xor (Nat.xor b c) d
  else if i < 60 then Nat.lor (Nat.lor (Nat.land b c) (Nat.land b d)) (Nat.land c d)
  else Nat.xor (Nat.xor b c) d

/-- The SHA-1 round constants. -/
def sha1K (i : Nat) : Nat :=
  if i < 20 then 1518500249
  else if i < 40 then 1859775393
  else if i < 60 then 2400959708
  else 3395469782

/-- Big-endian 32-bit words of a 64-byte block. -/
def bytesToWords : List Nat → List Nat
  | b0 :: b1 :: b2 :: b3 :: rest =>
      (((b0 * 256 + b1) * 256 + b2) * 256 + b3) :: bytesToWords rest
  | _ => []

/-- Message-schedule extension, most recent word first. -/
def sha1ExtendAux : Nat → List Nat → List Nat
  | 0, accRev => accRev
  | n + 1, accRev =>
      sha1ExtendAux n
        (rotl32 1 (Nat.xor (Nat.xor (accRev.getD 2 0) (accRev.getD 7 0))
          (Nat.xor (accRev.getD 13 0) (accRev.getD 15 0))) :: accRev)

/-- The 80 schedule words of a block. -/
def sha1Schedule (block : List Nat) : List Nat :=
  (sha1ExtendAux 64 (bytesToWords block).reverse).reverse

/-- One SHA-1 round on the five-word state. -/
def sha1Round (st : Nat × Nat × Nat × Nat × Nat) (iw : Nat × Nat) :
    Nat × Nat × Nat × Nat × Nat :=
  match st, iw with
  | (a, b, c, d, e), (i, w) =>
      (w32 (rotl32 5 a + sha1F i b c d + e + sha1K i + w), a, rotl32 30 b, c, d)

/-- Compress one 64-byte block into the running state. -/
def sha1ProcessBlock (h : Nat × Nat × Nat × Nat × Nat) (block : List Nat) :
    Nat × Nat × Nat × Nat × Nat :=
  match h with
  | (h0, h1, h2, h3, h4) =>
      match (sha1Schedule block).enum.foldl sha1Round (h0, h1, h2, h3, h4) with
      | (a, b, c, d, e) =>
          (w32 (h0 + a), w32 (h1 + b), w32 (h2 + c), w32 (h3 + d), w32 (h4 + e))

/-- Big-endian byte string of a number, fixed width. -/
def toBytesBE : Nat → Nat → List Nat
  | 0, _ => []
  | k + 1, n => toBytesBE k (n / 256) ++ [n % 256]

/-- SHA-1 padding: 0x80, zeros to 56 mod 64, 8-byte big-endian bit
length. -/
def sha1Pad (msg : List Nat) : List Nat :=
  msg ++ 128 :: List.replicate ((119 - msg.length % 64) % 64) 0
    ++ toBytesBE 8 (msg.length * 8)

/-- Split into 64-byte blocks (the fuel strictly bounds the recursion and
one unit is spent per block). -/
def chunks64 : Nat → List Nat → List (List Nat)
  | 0, _ => []
  | _ + 1, [] => []
  | fuel + 1, l => l.take 64 :: chunks64 fuel (l.drop 64)

/-- The five state words of the SHA-1 digest of a byte string. -/
def sha1Bytes (msg : List Nat) : Nat × Nat × Nat × Nat × Nat :=
  let padded := sha1Pad msg
  (chunks64 (padded.length + 1) padded).foldl sha1ProcessBlock
    (1732584193, 4023233417, 2562383102, 271733878, 3285377520)

/-- Lowercase hex digit. -/
def hexChar (d : Nat) : Char :=
  "0123456789abcdef".data.getD d '0'

/-- Eight lowercase hex digits of a 32-bit word, most significant first. -/
def wordHex (w : Nat) : List Char :=
  (List.range 8).map (fun i => hexChar ((w >>> (28 - 4 * i)) % 16))

/-- The lowercase-hex SHA-1 digest of a byte string, as the Rust
format!("{:x}", hasher.finalize()) renders it. -/
def sha1Hex (msg : List Nat) : String :=
  match sha1Bytes msg with
  | (a, b, c, d, e) =>
      String.mk (wordHex a ++ wordHex b ++ wordHex c ++ wordHex d ++ wordHex e)

/-- scanner/hash.rs hash_first_n: read up to n bytes (min(n, length) for a
regular file) and hash exactly the bytes read. -/
def hashFirstN (content : List Nat) (n : Nat) : String :=
  sha1Hex (content.take n)

/-! ## Selector (selector/mod.rs and selector/scoring.rs)

The numeric scoring pipeline is f64 arithmetic (logarithms, weighted sums);
it is abstracted into a scorer parameter, and every selector theorem is
quantified over the scorer, so it covers the concrete floating-point
scorer as one instance.  Bucket predicates, deduplication sets and sizes
are embedded concretely. -/

/-- Rust str::to_lowercase restricted to the ASCII range the bucket
keywords use. -/
def asciiLowerStr (l : List Char) : List Char :=
  l.map asciiLowerChar

/-- Substring test on character lists (str::contains). -/
def containsSub (hay needle : List Char) : Bool :=
  hay.tails.any (fun t => needle.isPrefixOf t)

/-- selector/mod.rs filename_contains: lower-cased file name contains the
needle. -/
def filenameContains (path : String) (needle : List Char) : Bool :=
  match fileNameOf path with
  | none => false
  | some nm => containsSub (asciiLowerStr nm) needle

/-- selector/mod.rs path_has_segment: some slash-separated component of the
path equals the target after lower-casing. -/
def pathHasSegment (p : String) (target : List Char) : Bool :=
  (splitChar '/' p.data).any (fun seg => asciiLowerStr seg = target)

/-- selector/scoring.rs calculate_age_days: whole days (toward zero, as
chrono num_days) since the best of accessed_at, modified_at, last_seen_at;
the f64 return value is integral, so an integer is exact. -/
def ageDays (now : Time) (f : FileRow) : Int :=
  let ref := match f.accessedAt with
    | some t => t
    | none => match f.modifiedAt with
      | some t => t
      | none => f.lastSeenAt
  Int.tdiv (now - ref) 86400

/-- selector/mod.rs is_screenshot. -/
def isScreenshot (f : FileRow) : Bool :=
  filenameContains f.path ("screenshot".data)
    || pathHasSegment f.parentDir ("screenshots".data)

/-- selector/mod.rs is_big_download: the f64 comparison size/1MiB > 100.0
is exact scaling by a power of two, hence equivalent to the integer
comparison. -/
def isBigDownload (now : Time) (f : FileRow) : Bool :=
  pathHasSegment f.parentDir ("downloads".data)
    && decide (104857600 < f.sizeBytes)
    && (f.lastOpenedAt.isNone || decide (30 < ageDays now f))

/-- selector/mod.rs is_old_desktop. -/
def isOldDesktop (now : Time) (f : FileRow) : Bool :=
  pathHasSegment f.parentDir ("desktop".data) && decide (14 < ageDays now f)

/-- Size of the group of files sharing a full digest. -/
def sha1GroupSize (files : List FileRow) (s : String) : Nat :=
  (files.filter (fun g => decide (g.sha1 = some s))).length

/-- Membership in selector/mod.rs find_duplicates: the id of some file
whose non-empty full digest is shared by at least one other file. -/
def inDupGroup (files : List FileRow) (fid : Int) : Bool :=
  files.any (fun g =>
    decide (g.id = fid) &&
      (match g.sha1 with
       | some s => !(decide (s = "")) && decide (1 < sha1GroupSize files s)
       | none => false))

/-- selector/mod.rs is_duplicate: files over 2 GiB (after the as-u64 cast)
are skipped, otherwise membership in the duplicate id set decides. -/
def isDuplicateFile (files : List FileRow) (f : FileRow) : Bool :=
  if 2147483648 < sizeU f.sizeBytes then false
  else inDupGroup files f.id

/-- selector/mod.rs FileBucket. -/
structure FileBucket where
  screenshots : List FileRow
  bigDownloads : List FileRow
  oldDesktop : List FileRow
  duplicates : List FileRow
  deriving Repr, DecidableEq

/-- selector/mod.rs bucket_files: classify every live file into each bucket
whose predicate it satisfies (a file may land in several buckets). -/
def bucketFiles (now : Time) (files : List FileRow) : FileBucket :=
  { screenshots := files.filter isScreenshot
    bigDownloads := files.filter (isBigDownload now)
    oldDesktop := files.filter (isOldDesktop now)
    duplicates := files.filter (isDuplicateFile files) }

/-- Abstraction of selector/scoring.rs FileScorer for one invocation: the
f64 score, confidence and preview hint as functions of the file (the
scoring context is fixed within an invocation). -/
structure Scorer where
  score : FileRow → Rat
  confidence : FileRow → Rat
  previewHint : FileRow → String

/-- selector/scoring.rs Candidate. -/
structure Candidate where
  fileId : Int
  path : String
  parentDir : String
  sizeBytes : Nat
  reason : String
  score : Rat
  confidence : Rat
  previewHint : String
  ageDays : Int
  deriving Repr, DecidableEq

/-- The candidate built inside selector/mod.rs select_from_bucket. -/
def mkCandidate (now : Time) (sc : Scorer) (reason : String) (f : FileRow) :
    Candidate :=
  { fileId := f.id, path := f.path, parentDir := f.parentDir,
    sizeBytes := sizeU f.sizeBytes, reason := reason, score := sc.score f,
    confidence := sc.confidence f, previewHint := sc.previewHint f,
    ageDays := ageDays now f }

/-- selector/mod.rs select_from_bucket: score the bucket, sort by score
descending breaking ties by last_seen descending, keep the per-bucket
cap. -/
def selectFromBucket (now : Time) (sc : Scorer) (files : List FileRow)
    (maxCount : Nat) (reason : String) : List Candidate :=
  let scored := files.map (fun f => (mkCandidate now sc reason f, f.lastSeenAt))
  let sorted := scored.mergeSort (fun x y =>
    decide (y.1.score < x.1.score)
      || (decide (y.1.score = x.1.score) && decide (y.2 ≤ x.2)))
  (sorted.take maxCount).map (fun p => p.1)

/-- selector/mod.rs BucketConfig. -/
structure BucketConfig where
  screenshotsMax : Nat
  bigDownloadsMax : Nat
  oldDesktopMax : Nat
  duplicatesMax : Nat
  dailyTotalMax : Nat
  deriving Repr, DecidableEq

/-- The default caps: 5 screenshots, 3 big downloads, 2 old desktop, 2
duplicates, 12 per day. -/
def defaultBucketConfig : BucketConfig :=
  ⟨5, 3, 2, 2, 12⟩

/-- selector/mod.rs select_candidates: concatenate the per-bucket winners,
sort by score descending, truncate to min(max_total, daily_total_max). -/
def selectCandidates (now : Time) (sc : Scorer) (cfg : BucketConfig)
    (b : FileBucket) (maxTotal : Nat) : List Candidate :=
  let cands :=
    selectFromBucket now sc b.screenshots cfg.screenshotsMax "Screenshots"
      ++ selectFromBucket now sc b.bigDownloads cfg.bigDownloadsMax "Big Downloads"
      ++ selectFromBucket now sc b.oldDesktop cfg.oldDesktopMax "Old Desktop"
      ++ selectFromBucket now sc b.duplicates cfg.duplicatesMax "Duplicates"
  (cands.mergeSort (fun x y => decide (y.score ≤ x.score))).take
    (min maxTotal cfg.dailyTotalMax)

/-- selector/mod.rs daily_candidates with the default configuration. -/
def dailyCandidates (now : Time) (sc : Scorer) (maxTotal : Nat)
    (files : List FileRow) : List Candidate :=
  selectCandidates now sc defaultBucketConfig (bucketFiles now files) maxTotal

/-- The whole ranked pool: the concatenation of the four per-bucket
selections under the default caps, before any global truncation. -/
def fullCandidatePool (now : Time) (sc : Scorer) (files : List FileRow) :
    List Candidate :=
  let b := bucketFiles now files
  selectFromBucket now sc b.screenshots 5 "Screenshots"
    ++ selectFromBucket now sc b.bigDownloads 3 "Big Downloads"
    ++ selectFromBucket now sc b.oldDesktop 2 "Old Desktop"
    ++ selectFromBucket now sc b.duplicates 2 "Duplicates"

/-- Sum of candidate sizes in bytes. -/
def sumSizes (l : List Candidate) : Nat :=
  (l.map (fun c => c.sizeBytes)).sum

/-- gauge.rs compute_potential_today: sum of the sizes of the daily
candidates requested with the large cap 1000. -/
def computePotentialToday (now : Time) (sc : Scorer) (files : List FileRow) :
    Nat :=
  sumSizes (dailyCandidates now sc 1000 files)

/-- Claim C5 as stated: for every file set and invocation (any scorer, any
cap), the emitted candidate list has no duplicate file ids. -/
def selectorClaimHolds : Prop :=
  ∀ (now : Time) (sc : Scorer) (files : List FileRow) (maxTotal : Nat),
    ((dailyCandidates now sc maxTotal files).map (fun c => c.fileId)).Nodup

/-- A trivial scorer instance used to witness the C5 counterexample (the
claim quantifies over every invocation, hence over every scorer). -/
def zeroScorer : Scorer :=
  ⟨fun _ => 0, fun _ => 0, fun _ => ""⟩

/-- The C5 file: an old screenshot sitting on the desktop, which satisfies
both the screenshot predicate and the old-desktop predicate. -/
def fileC5 : FileRow :=
  { id := 1, path := "/home/u/desktop/screenshot.png",
    parentDir := "/home/u/desktop", mime := some "image/png", sizeBytes := 10,
    createdAt := 0, modifiedAt := none, accessedAt := none,
    lastOpenedAt := none, partialSha1 := none, sha1 := none,
    firstSeenAt := 0, lastSeenAt := 0, isDeleted := false, isStaged := false,
    cooloffUntil := none }

/-- Builder for concrete file rows in the counterexamples and witnesses. -/
def mkRow (i : Int) (p : String) (del : Bool) : FileRow :=
  { id := i, path := p, parentDir := "", mime := none, sizeBytes := 0,
    createdAt := 0, modifiedAt := none, accessedAt := none,
    lastOpenedAt := none, partialSha1 := none, sha1 := none,
    firstSeenAt := 0, lastSeenAt := 0, isDeleted := del, isStaged := false,
    cooloffUntil := none }

/-- Concrete store for the reconciliation claim: one live row whose path is
outside the root by prefix semantics but matched by the unescaped LIKE
pattern, and one tombstoned row whose path is in the seen set. -/
def dbC7 : Db :=
  { files := [mkRow 1 "axb/f" false, mkRow 2 "p" true]
    actions := []
    staged := [] }

/-- Store for claim C3: one 100-byte file with an archive action inside the
gauge window whose staged record has status restored (the file was already
restored, so the spec says it contributes nothing). -/
def dbC3 : Db :=
  { files := [{ mkRow 1 "f" false with sizeBytes := 100 }]
    actions := [{ id := some 1, fileId := 1, kind := .archive, batchId := "b",
                  srcPath := some "f", dstPath := some "d", origin := none,
                  note := none, createdAt := 5 }]
    staged := [{ id := 1, fileId := 1, stagedAt := 5, expiresAt := none,
                 batchId := some "b", status := "restored", note := none }] }

end WhiteSpace

namespace WhiteSpace

theorem applyUpsertUpdate_path (now : Time) (f : NewFile) (r : FileRow) :
    (applyUpsertUpdate now f r).path = r.path := rfl

theorem find?_map_upsert (now : Time) (f : NewFile) (p : String)
    (hp : p ≠ f.path) (l : List FileRow) :
    List.find? (fun r => r.path = p)
      (l.map (fun r => if r.path = f.path then applyUpsertUpdate now f r else r)) =
    List.find? (fun r => r.path = p) l := by
  induction l with
  | nil => simp
  | cons r rs ih =>
      have hgpath : (if r.path = f.path then applyUpsertUpdate now f r else r).path = r.path := by
        split
        · exact applyUpsertUpdate_path now f r
        · rfl
      by_cases hrp : r.path = p
      · have hr : ¬ r.path = f.path := fun hh => hp (hrp ▸ hh)
        have hgr : (if r.path = f.path then applyUpsertUpdate now f r else r) = r := by
          simp [hr]
        simp only [List.map_cons]
        rw [List.find?_cons_of_pos _ (by simp only [hgr]; simp [hrp]),
          List.find?_cons_of_pos _ (by simp [hrp])]
        rw [hgr]
      · have hne : ¬ ((if r.path = f.path then applyUpsertUpdate now f r else r).path = p) := by
          rw [hgpath]; exact hrp
        simp only [List.map_cons]
        rw [List.find?_cons_of_neg _ (by simpa using hne),
          List.find?_cons_of_neg _ (by simpa using hrp)]
        exact ih

theorem upsert_findRow_other (now : Time) (newId : Int) (f : NewFile)
    (files : List FileRow) (p : String) (hp : p ≠ f.path) :
    findRow (upsertFile now newId f files) p = findRow files p := by
  unfold upsertFile findRow
  cases hany : files.any (fun r => r.path = f.path) with
  | true =>
      simp only [hany, if_true]
      exact find?_map_upsert now f p hp files
  | false =>
      simp only [hany, Bool.false_eq_true, if_false]
      rw [List.find?_append]
      have hnew : List.find? (fun r => r.path = p) [insertUpsertRow now newId f] = none := by
        have hfp : ¬ f.path = p := fun hh => hp hh.symm
        simp [insertUpsertRow, hfp]
      rw [hnew]
      cases List.find? (fun r => decide (r.path = p)) files <;> rfl

theorem applyUpsertUpdate_twice (now now₂ : Time) (f : NewFile) (r : FileRow) :
    applyUpsertUpdate now₂ f (applyUpsertUpdate now f r) =
      { applyUpsertUpdate now f r with lastSeenAt := now₂ } := by
  cases hf : f.sha1 <;> simp [applyUpsertUpdate, hf]

theorem applyUpsertUpdate_insertRow (now now₂ : Time) (newId : Int) (f : NewFile) :
    applyUpsertUpdate now₂ f (insertUpsertRow now newId f) =
      { insertUpsertRow now newId f with lastSeenAt := now₂ } := by
  cases hf : f.sha1 <;> simp [applyUpsertUpdate, insertUpsertRow, hf]

theorem upsert_mem_path_eq (now now₂ : Time) (newId : Int) (f : NewFile)
    (files : List FileRow) (r : FileRow)
    (hr : r ∈ upsertFile now newId f files) (hpath : r.path = f.path) :
    applyUpsertUpdate now₂ f r = { r with lastSeenAt := now₂ } := by
  unfold upsertFile at hr
  cases hany : files.any (fun r => r.path = f.path) with
  | true =>
      rw [hany] at hr
      simp only [if_true, List.mem_map] at hr
      obtain ⟨r₀, _, hmap⟩ := hr
      by_cases h₀ : r₀.path = f.path
      · rw [if_pos h₀] at hmap
        rw [← hmap]
        exact applyUpsertUpdate_twice now now₂ f r₀
      · rw [if_neg h₀] at hmap
        rw [← hmap] at hpath
        exact absurd hpath h₀
  | false =>
      rw [hany] at hr
      simp only [Bool.false_eq_true, if_false, List.mem_append, List.mem_singleton] at hr
      cases hr with
      | inl hin =>
          have : ∀ x ∈ files, ¬ x.path = f.path := by
            intro x hx hxp
            have : files.any (fun r => r.path = f.path) = true :=
              List.any_eq_true.mpr ⟨x, hx, by simpa using hxp⟩
            rw [hany] at this
            exact Bool.false_ne_true this
          exact absurd hpath (this r hin)
      | inr hnew =>
          rw [hnew]
          exact applyUpsertUpdate_insertRow now now₂ newId f

/-- Claim C6: upsert-by-path contract.  (i) Rows at any other path are
untouched.  (ii) If a row with the payload's path exists, the stored row
keeps its id, path, creation timestamp, last-opened timestamp, first_seen,
staged flag and cool-off, takes the new parent/media/size/mtime/atime/head
sample, overwrites the full digest only when the new value is non-null,
gets last_seen = now and tombstone cleared.  (iii) If no row exists, a row
with first_seen = last_seen = now, tombstone=false, staged=false is
inserted.  (iv) Repeating the upsert with identical metadata is a no-op on
everything except last_seen. -/
theorem upsert_by_path_contract (now now₂ : Time) (newId newId₂ : Int)
    (f : NewFile) (files : List FileRow) :
    (∀ p, p ≠ f.path → findRow (upsertFile now newId f files) p = findRow files p)
    ∧ (∀ r, findRow files f.path = some r →
        findRow (upsertFile now newId f files) f.path = some
          { id := r.id, path := r.path, parentDir := f.parentDir, mime := f.mime,
            sizeBytes := f.sizeBytes, createdAt := r.createdAt,
            modifiedAt := f.modifiedAt, accessedAt := f.accessedAt,
            lastOpenedAt := r.lastOpenedAt, partialSha1 := f.partialSha1,
            sha1 := match f.sha1 with
              | some s => some s
              | none => r.sha1,
            firstSeenAt := r.firstSeenAt, lastSeenAt := now,
            isDeleted := false, isStaged := r.isStaged,
            cooloffUntil := r.cooloffUntil })
    ∧ (findRow files f.path = none →
        findRow (upsertFile now newId f files) f.path = some (insertUpsertRow now newId f)
        ∧ (insertUpsertRow now newId f).firstSeenAt = now
        ∧ (insertUpsertRow now newId f).lastSeenAt = now
        ∧ (insertUpsertRow now newId f).isDeleted = false
        ∧ (insertUpsertRow now newId f).isStaged = false)
    ∧ upsertFile now₂ newId₂ f (upsertFile now newId f files)
        = (upsertFile now newId f files).map
            (fun r => if r.path = f.path then { r with lastSeenAt := now₂ } else r) := by
  refine ⟨fun p hp => upsert_findRow_other now newId f files p hp, ?_, ?_, ?_⟩
  · intro r hfind
    have hmem : r ∈ files := List.mem_of_find?_eq_some hfind
    have hpath : r.path = f.path := by
      have := List.find?_some hfind
      simpa using this
    have hany : files.any (fun r => r.path = f.path) = true :=
      List.any_eq_true.mpr ⟨r, hmem, by simpa using hpath⟩
    unfold upsertFile findRow
    rw [hany, if_pos rfl]
    rw [List.find?_map]
    have hcomp : ((fun r : FileRow => decide (r.path = f.path)) ∘
        (fun r => if r.path = f.path then applyUpsertUpdate now f r else r)) =
        (fun r : FileRow => decide (r.path = f.path)) := by
      funext x
      by_cases hx : x.path = f.path
      · simp [hx, applyUpsertUpdate_path]
      · simp [hx]
    unfold findRow at hfind
    rw [hcomp, hfind]
    have : applyUpsertUpdate now f r =
        { id := r.id, path := r.path, parentDir := f.parentDir, mime := f.mime,
          sizeBytes := f.sizeBytes, createdAt := r.createdAt,
          modifiedAt := f.modifiedAt, accessedAt := f.accessedAt,
          lastOpenedAt := r.lastOpenedAt, partialSha1 := f.partialSha1,
          sha1 := match f.sha1 with
            | some s => some s
            | none => r.sha1,
          firstSeenAt := r.firstSeenAt, lastSeenAt := now,
          isDeleted := false, isStaged := r.isStaged,
          cooloffUntil := r.cooloffUntil } := rfl
    simp [hpath, this]
  · intro hnone
    have hall : ∀ x ∈ files, ¬ x.path = f.path := by
      intro x hx hxp
      have := List.find?_eq_none.mp hnone x hx
      simp [hxp] at this
    have hany : files.any (fun r => r.path = f.path) = false := by
      cases hh : files.any (fun r => r.path = f.path) with
      | false => rfl
      | true =>
          obtain ⟨x, hx, hxp⟩ := List.any_eq_true.mp hh
          exact absurd (by simpa using hxp) (hall x hx)
    refine ⟨?_, rfl, rfl, rfl, rfl⟩
    unfold upsertFile findRow
    rw [hany]
    simp only [Bool.false_eq_true, if_false]
    rw [List.find?_append, List.find?_eq_none.mpr ?_]
    · simp [insertUpsertRow]
    · intro x hx
      simpa using hall x hx
  · have hany₂ : (upsertFile now newId f files).any (fun r => r.path = f.path) = true := by
      unfold upsertFile
      cases hany : files.any (fun r => r.path = f.path) with
      | true =>
          rw [if_pos rfl]
          obtain ⟨x, hx, hxp⟩ := List.any_eq_true.mp hany
          refine List.any_eq_true.mpr ⟨applyUpsertUpdate now f x, ?_, ?_⟩
          · exact List.mem_map.mpr ⟨x, hx, by simp [show x.path = f.path from by simpa using hxp]⟩
          · simp [applyUpsertUpdate_path, show x.path = f.path from by simpa using hxp]
      | false =>
          simp only [Bool.false_eq_true, if_false]
          exact List.any_eq_true.mpr ⟨insertUpsertRow now newId f,
            List.mem_append.mpr (Or.inr (List.mem_singleton.mpr rfl)), by simp [insertUpsertRow]⟩
    conv_lhs => rw [upsertFile]
    rw [hany₂, if_pos rfl]
    apply List.map_congr_left
    intro r hr
    by_cases hp : r.path = f.path
    · rw [if_pos hp, if_pos hp]
      exact upsert_mem_path_eq now now₂ newId f files r hr hp
    · rw [if_neg hp, if_neg hp]

/-- Concrete instantiation of the C6 contract: upserting an existing path
rewrites the stored row as the contract states. -/
theorem upsert_by_path_contract_witness :
    findRow (upsertFile 20 9
      { path := "/r/a.txt", parentDir := "/r", mime := some "text/plain",
        sizeBytes := 7, createdAt := none, modifiedAt := some 15,
        accessedAt := some 16, partialSha1 := some "p2", sha1 := none }
      [{ id := 1, path := "/r/a.txt", parentDir := "/r", mime := none,
         sizeBytes := 3, createdAt := 2, modifiedAt := some 2,
         accessedAt := some 3, lastOpenedAt := none, partialSha1 := some "p1",
         sha1 := some "s1", firstSeenAt := 2, lastSeenAt := 10,
         isDeleted := true, isStaged := false, cooloffUntil := none }]) "/r/a.txt"
    = some
      { id := 1, path := "/r/a.txt", parentDir := "/r", mime := some "text/plain",
        sizeBytes := 7, createdAt := 2, modifiedAt := some 15,
        accessedAt := some 16, lastOpenedAt := none, partialSha1 := some "p2",
        sha1 := some "s1", firstSeenAt := 2, lastSeenAt := 20,
        isDeleted := false, isStaged := false, cooloffUntil := none } := by
  have h := (upsert_by_path_contract 20 20 9 9
    { path := "/r/a.txt", parentDir := "/r", mime := some "text/plain",
      sizeBytes := 7, createdAt := none, modifiedAt := some 15,
      accessedAt := some 16, partialSha1 := some "p2", sha1 := none }
    [{ id := 1, path := "/r/a.txt", parentDir := "/r", mime := none,
       sizeBytes := 3, createdAt := 2, modifiedAt := some 2,
       accessedAt := some 3, lastOpenedAt := none, partialSha1 := some "p1",
       sha1 := some "s1", firstSeenAt := 2, lastSeenAt := 10,
       isDeleted := true, isStaged := false, cooloffUntil := none }]).2.1
    { id := 1, path := "/r/a.txt", parentDir := "/r", mime := none,
      sizeBytes := 3, createdAt := 2, modifiedAt := some 2,
      accessedAt := some 3, lastOpenedAt := none, partialSha1 := some "p1",
      sha1 := some "s1", firstSeenAt := 2, lastSeenAt := 10,
      isDeleted := true, isStaged := false, cooloffUntil := none } (by rfl)
  exact h

/-- Claim C7 as stated is false on the code: with root "a_b" the unescaped
LIKE pattern "a_b/%" also tombstones the live row at "axb/f", which lies
outside the root under the spec's prefix semantics (and the tombstoned row
whose path is in the seen set stays tombstoned). -/
theorem reconcile_root_counterexample :
    ¬ reconcileClaimHolds "a_b" ["p"] dbC7 := by
  intro h
  have h3 := h.2.2 (mkRow 1 "axb/f" false) (by decide)
    (by
      intro hc
      cases hc with
      | inl hpre => exact absurd hpre (by decide)
      | inr hpre => exact absurd hpre (by decide))
  exact absurd h3 (by decide)

/-- Claim C7 amended: after mark_missing_for_root (with distinct row ids),
exactly the live rows whose path matches the SQL LIKE pattern
root-plus-separator-plus-percent (wildcards in the root unescaped) and is
not in the seen set are tombstoned with staged=false and null cool-off, and
exactly their staged records are deleted; every other row and staged record
is unchanged, so rows whose path is in the seen set keep their previous
tombstone value. -/
theorem mark_missing_for_root_contract (root : String) (seen : List String)
    (db : Db) (hIds : (db.files.map (fun r => r.id)).Nodup) :
    (markMissingForRoot root seen db).files =
        db.files.map (fun r => if missingCond root seen r then tombstoneRow r else r)
    ∧ ∀ s, s ∈ (markMissingForRoot root seen db).staged ↔
        s ∈ db.staged ∧ ¬ ∃ r, r ∈ db.files ∧ missingCond root seen r = true ∧ r.id = s.fileId := by
  have key : ∀ r ∈ db.files,
      (r.id ∈ (db.files.filter (missingCond root seen)).map (fun r => r.id)
        ↔ missingCond root seen r = true) := by
    intro r hr
    constructor
    · intro hmem
      obtain ⟨r', hr', hid⟩ := List.mem_map.mp hmem
      obtain ⟨hr'mem, hcond⟩ := List.mem_filter.mp hr'
      have heq := List.inj_on_of_nodup_map hIds hr'mem hr hid
      rw [← heq]
      exact hcond
    · intro hcond
      exact List.mem_map.mpr ⟨r, List.mem_filter.mpr ⟨hr, hcond⟩, rfl⟩
  constructor
  · show db.files.map _ = db.files.map _
    apply List.map_congr_left
    intro r hr
    by_cases hc : missingCond root seen r = true
    · rw [if_pos ((key r hr).mpr hc)]
      simp [hc]
    · have hnot : r.id ∉ (db.files.filter (missingCond root seen)).map (fun r => r.id) :=
        fun hm => hc ((key r hr).mp hm)
      rw [if_neg hnot]
      simp [hc]
  · intro s
    show s ∈ db.staged.filter _ ↔ _
    rw [List.mem_filter]
    constructor
    · rintro ⟨hmem, hpred⟩
      refine ⟨hmem, fun ⟨r, hr, hcond, hid⟩ => ?_⟩
      have : s.fileId ∈ (db.files.filter (missingCond root seen)).map (fun r => r.id) :=
        List.mem_map.mpr ⟨r, List.mem_filter.mpr ⟨hr, hcond⟩, hid⟩
      simp [this] at hpred
    · rintro ⟨hmem, hno⟩
      refine ⟨hmem, ?_⟩
      have : s.fileId ∉ (db.files.filter (missingCond root seen)).map (fun r => r.id) := by
        intro hm
        obtain ⟨r', hr', hid⟩ := List.mem_map.mp hm
        obtain ⟨hr'mem, hcond⟩ := List.mem_filter.mp hr'
        exact hno ⟨r', hr'mem, hcond, hid⟩
      simp [this]

/-- Concrete instantiation of the amended C7 contract on the two-row
store. -/
theorem mark_missing_for_root_contract_witness :
    (markMissingForRoot "a_b" ["p"] dbC7).files =
      dbC7.files.map (fun r => if missingCond "a_b" ["p"] r then tombstoneRow r else r) :=
  (mark_missing_for_root_contract "a_b" ["p"] dbC7 (by decide)).1

/-- Claim C1 fails on the code: in the two-file archive batch, file 1 is
moved back first (d1 to o1), then file 2 fails because o2 is occupied and
rollback runs.  was_action_successful tests whether the recorded
destination still exists, which is false exactly for the entries already
moved back, so the completed move of file 1 is never undone (and the
rollback merely re-attempts the failing entry 2).  Afterwards file 1 sits
at o1 instead of its pre-restore location d1: the batch is left
half-restored even though rollback was performed. -/
theorem undo_rollback_not_atomic :
    fsC1 = ["d1", "d2", "o2"]
    ∧ undoBatch [actC1a, actC1b] fsC1 =
        { fs := ["o1", "d2", "o2"], actionsReversed := 1, filesRestored := 1,
          errors := 1, rollbackPerformed := true } := by decide

theorem mem_dedupKeepFirstAux (l : List String) :
    ∀ (seen : List String) (b : String),
      b ∈ dedupKeepFirstAux seen l ↔ b ∈ l ∧ b ∉ seen := by
  induction l with
  | nil => intro seen b; simp [dedupKeepFirstAux]
  | cons x rest ih =>
      intro seen b
      by_cases hx : x ∈ seen
      · rw [dedupKeepFirstAux, if_pos hx, ih]
        constructor
        · rintro ⟨hb, hnb⟩
          exact ⟨List.mem_cons_of_mem _ hb, hnb⟩
        · rintro ⟨hb, hnb⟩
          cases List.mem_cons.mp hb with
          | inl he => exact absurd (he ▸ hx) hnb
          | inr hm => exact ⟨hm, hnb⟩
      · rw [dedupKeepFirstAux, if_neg hx]
        constructor
        · intro hmem
          cases List.mem_cons.mp hmem with
          | inl he =>
              subst he
              exact ⟨List.mem_cons_self _ _, hx⟩
          | inr hm =>
              obtain ⟨hb, hnb⟩ := (ih (x :: seen) b).mp hm
              exact ⟨List.mem_cons_of_mem _ hb,
                fun hs => hnb (List.mem_cons_of_mem _ hs)⟩
        · rintro ⟨hb, hnb⟩
          cases List.mem_cons.mp hb with
          | inl he => exact he ▸ List.mem_cons_self _ _
          | inr hm =>
              by_cases hbx : b = x
              · exact hbx ▸ List.mem_cons_self _ _
              · refine List.mem_cons_of_mem _ ((ih (x :: seen) b).mpr ⟨hm, ?_⟩)
                intro hs
                cases List.mem_cons.mp hs with
                | inl h => exact hbx h
                | inr h => exact hnb h

theorem nodup_dedupKeepFirstAux (l : List String) :
    ∀ seen, (dedupKeepFirstAux seen l).Nodup := by
  induction l with
  | nil => intro seen; simp [dedupKeepFirstAux]
  | cons x rest ih =>
      intro seen
      by_cases hx : x ∈ seen
      · rw [dedupKeepFirstAux, if_pos hx]
        exact ih seen
      · rw [dedupKeepFirstAux, if_neg hx]
        refine List.nodup_cons.mpr ⟨?_, ih (x :: seen)⟩
        intro hmem
        exact ((mem_dedupKeepFirstAux rest (x :: seen) x).mp hmem).2
          (List.mem_cons_self _ _)

theorem mem_getUndoableBatchesFrom (actions ordered : List Action) (b : String)
    (hperm : ordered.Perm actions) :
    b ∈ getUndoableBatchesFrom ordered ↔
      ∃ a ∈ actions, isUndoableKind a.kind = true ∧ a.batchId = b := by
  unfold getUndoableBatchesFrom
  rw [mem_dedupKeepFirstAux]
  simp only [List.not_mem_nil, not_false_iff, and_true]
  rw [List.mem_map]
  constructor
  · rintro ⟨a, hmem, hid⟩
    obtain ⟨ha, hq⟩ := List.mem_filter.mp hmem
    exact ⟨a, hperm.mem_iff.mp ha, hq, hid⟩
  · rintro ⟨a, ha, hq, hid⟩
    exact ⟨a, List.mem_filter.mpr ⟨hperm.mem_iff.mpr ha, hq⟩, hid⟩

theorem mem_getUndoableBatches (actions : List Action) (b : String) :
    b ∈ getUndoableBatches actions ↔
      ∃ a ∈ actions, isUndoableKind a.kind = true ∧ a.batchId = b :=
  mem_getUndoableBatchesFrom actions (sortActionsNewestFirst actions) b
    (List.mergeSort_perm actions _)

/-- Claim C4 fails on the code: batch b1 archives file 1 and a later
restore action references file 1, yet b1 is still enumerated, because the
SQL query never inspects restore actions. -/
theorem get_undoable_batches_counterexample :
    ¬ undoableClaimHolds actsC4 := by
  intro h
  have hmem : "b1" ∈ getUndoableBatches actsC4 :=
    (mem_getUndoableBatches actsC4 "b1").mpr ⟨actC4a, by decide, by decide, rfl⟩
  exact (h "b1" hmem).2
    ⟨actC4r, by decide, rfl, actC4a, by decide, rfl, by decide, by decide, by decide⟩

/-- Claim C4 amended: for every row order the query may scan (any
permutation of the action log, since SQLite's ORDER BY names a column
absent from the DISTINCT result set and therefore orders the ids by an
arbitrary representative row), enumerating undoable batches returns
exactly the distinct batch ids having at least one archive or delete
member action, each id once; later restore actions are never inspected, so
batches whose files were later restored are still included, and no
particular output order (in particular not newest first) holds. -/
theorem get_undoable_batches_contract (actions ordered : List Action)
    (hperm : ordered.Perm actions) :
    (∀ b, b ∈ getUndoableBatchesFrom ordered ↔
        ∃ a ∈ actions, isUndoableKind a.kind = true ∧ a.batchId = b)
    ∧ (getUndoableBatchesFrom ordered).Nodup
    ∧ (∀ b, b ∈ getUndoableBatches actions ↔
        ∃ a ∈ actions, isUndoableKind a.kind = true ∧ a.batchId = b)
    ∧ (getUndoableBatches actions).Nodup :=
  ⟨fun b => mem_getUndoableBatchesFrom actions ordered b hperm,
   nodup_dedupKeepFirstAux _ _,
   fun b => mem_getUndoableBatches actions b,
   nodup_dedupKeepFirstAux _ _⟩

/-- Concrete instantiation of the amended C4 contract on the two-action
log, with the identity scan order discharging the permutation
hypothesis. -/
theorem get_undoable_batches_contract_witness :
    (getUndoableBatchesFrom actsC4).Nodup ∧ (getUndoableBatches actsC4).Nodup :=
  ⟨(get_undoable_batches_contract actsC4 actsC4 (List.Perm.refl _)).2.1,
   (get_undoable_batches_contract actsC4 actsC4 (List.Perm.refl _)).2.2.2⟩

theorem toDigitsCore_append (n : Nat) :
    ∀ (fuel : Nat) (acc : List Char), n < fuel →
      Nat.toDigitsCore 10 fuel n acc = Nat.toDigits 10 n ++ acc := by
  induction n using Nat.strong_induction_on with
  | _ n ih =>
      intro fuel acc hlt
      match fuel with
      | 0 => exact absurd hlt (Nat.not_lt_zero n)
      | f + 1 =>
          by_cases h0 : n / 10 = 0
          · simp [Nat.toDigitsCore, Nat.toDigits, h0]
          · have hpos : 0 < n := by
              rcases Nat.eq_zero_or_pos n with h | h
              · exact absurd (by simp [h]) h0
              · exact h
            have hdiv : n / 10 < n := Nat.div_lt_self hpos (by norm_num)
            have hdivf : n / 10 < f := by omega
            have hdivn : n / 10 < n := hdiv
            simp only [Nat.toDigitsCore, Nat.toDigits, h0, if_false]
            rw [ih (n / 10) hdiv f _ hdivf, ih (n / 10) hdiv n _ hdivn]
            simp

theorem digitVal_digitChar : ∀ d, d < 10 → digitVal (Nat.digitChar d) = d := by decide

theorem decValue_toDigits (n : Nat) : decValue (Nat.toDigits 10 n) = n := by
  induction n using Nat.strong_induction_on with
  | _ n ih =>
      by_cases h0 : n / 10 = 0
      · have hn : n < 10 := by
          by_contra hge
          push_neg at hge
          have h1 : 1 ≤ n / 10 := (Nat.one_le_div_iff (by norm_num)).mpr hge
          omega
        have hmod : n % 10 = n := Nat.mod_eq_of_lt hn
        have hdig : Nat.toDigits 10 n = [Nat.digitChar (n % 10)] := by
          simp [Nat.toDigits, Nat.toDigitsCore, h0]
        rw [hdig]
        have hone : decValue [Nat.digitChar (n % 10)] =
            digitVal (Nat.digitChar (n % 10)) := by
          simp [decValue]
        rw [hone, digitVal_digitChar (n % 10) (Nat.mod_lt n (by norm_num)), hmod]
      · have hpos : 0 < n := by
          rcases Nat.eq_zero_or_pos n with h | h
          · exact absurd (by simp [h]) h0
          · exact h
        have hdiv : n / 10 < n := Nat.div_lt_self hpos (by norm_num)
        have hstep : Nat.toDigits 10 n =
            Nat.toDigits 10 (n / 10) ++ [Nat.digitChar (n % 10)] := by
          conv_lhs =>
            rw [show Nat.toDigits 10 n =
              (if n / 10 = 0 then [Nat.digitChar (n % 10)]
               else Nat.toDigitsCore 10 n (n / 10) [Nat.digitChar (n % 10)]) from rfl]
          rw [if_neg h0, toDigitsCore_append (n / 10) n _ hdiv]
        rw [hstep]
        have hfold : decValue (Nat.toDigits 10 (n / 10) ++ [Nat.digitChar (n % 10)]) =
            decValue (Nat.toDigits 10 (n / 10)) * 10 + digitVal (Nat.digitChar (n % 10)) := by
          simp [decValue, List.foldl_append]
        rw [hfold, ih (n / 10) hdiv,
          digitVal_digitChar (n % 10) (Nat.mod_lt n (by norm_num))]
        omega

theorem natRepr_data (t : Nat) : (Nat.repr t).data = Nat.toDigits 10 t := rfl

theorem natRepr_inj (t₁ t₂ : Nat) (h : Nat.repr t₁ = Nat.repr t₂) : t₁ = t₂ := by
  have hd : Nat.toDigits 10 t₁ = Nat.toDigits 10 t₂ := by
    rw [← natRepr_data, ← natRepr_data, h]
  calc t₁ = decValue (Nat.toDigits 10 t₁) := (decValue_toDigits t₁).symm
    _ = decValue (Nat.toDigits 10 t₂) := by rw [hd]
    _ = t₂ := decValue_toDigits t₂

/-- Claim C8 fails on the code: the millisecond timestamp is printed in
decimal without padding, so the id of a later batch does not order after an
earlier one (archive_10 sorts before archive_9), and two same-kind batches
within one millisecond share an id outright. -/
theorem generate_batch_id_counterexample : ¬ batchIdClaimHolds := by
  intro h
  exact absurd (h 9 10 (by norm_num)).2.1 (by decide)

/-- Claim C8 amended: a batch id is the operation kind plus the decimal
millisecond timestamp; two ids of the same kind are equal exactly when the
millisecond timestamps are equal (so ids are only reused by same-kind
operations within one millisecond), archive ids never collide with delete
ids, and the ids are not ordered as strings. -/
theorem generate_batch_id_contract :
    (∀ t₁ t₂ : Nat, generateArchiveBatchId t₁ = generateArchiveBatchId t₂ ↔ t₁ = t₂)
    ∧ (∀ t₁ t₂ : Nat, generateDeleteBatchId t₁ = generateDeleteBatchId t₂ ↔ t₁ = t₂)
    ∧ (∀ t₁ t₂ : Nat, generateArchiveBatchId t₁ ≠ generateDeleteBatchId t₂) := by
  refine ⟨fun t₁ t₂ => ⟨fun h => ?_, fun h => by rw [h]⟩,
    fun t₁ t₂ => ⟨fun h => ?_, fun h => by rw [h]⟩, fun t₁ t₂ h => ?_⟩
  · have hd := congrArg String.data h
    simp only [generateArchiveBatchId, String.data_append] at hd
    exact natRepr_inj t₁ t₂ (congrArg List.asString (List.append_cancel_left hd))
  · have hd := congrArg String.data h
    simp only [generateDeleteBatchId, String.data_append] at hd
    exact natRepr_inj t₁ t₂ (congrArg List.asString (List.append_cancel_left hd))
  · have hd := congrArg String.data h
    simp only [generateArchiveBatchId, generateDeleteBatchId, String.data_append] at hd
    have hhead := congrArg List.head? hd
    have h1 : List.head? ("archive_".data ++ (Nat.repr t₁).data) = some 'a' := rfl
    have h2 : List.head? ("delete_".data ++ (Nat.repr t₂).data) = some 'd' := rfl
    rw [h1, h2] at hhead
    exact absurd hhead (by decide)

/-- Concrete instantiation of the amended C8 contract: archive and delete
ids of the same millisecond still differ. -/
theorem generate_batch_id_contract_witness :
    generateArchiveBatchId 7 ≠ generateDeleteBatchId 7 :=
  generate_batch_id_contract.2.2 7 7

/-- Claim C3 fails on the code: compute_staged_week sums the sizes of files
with archive actions in the window (has_delete_action_after_archive is a
false placeholder), not the files whose staged record currently has status
staged.  On a file whose staged record says restored, the gauge still
counts its 100 bytes while the spec's staged-record reading yields 0; the
repository even contains the matching query
list_current_staged_files_in_period, which the gauge does not call. -/
theorem staged_window_uses_action_log :
    computeStagedWeek dbC3 0 10 = 100 ∧ specStagedWindow dbC3 0 10 = 0 := by
  decide

/-- Claim C10: archive_single_file touches the store only after the
filesystem move has completed.  If the move fails (rename failed and the
copy-verify-delete fallback failed, or the source is gone), the store is
returned unchanged; conversely whenever the store changed, and in
particular whenever the call reports success, the move had completed. -/
theorem archive_mutates_store_only_after_move (env : ArchiveEnv) (now : Time)
    (source archiveDir batchId : String) (fs : Fs) (db : Db) :
    (moveSucceeded env source fs = false →
      (archiveSingleFile env now source archiveDir batchId fs db).db = db)
    ∧ ((archiveSingleFile env now source archiveDir batchId fs db).db ≠ db →
        moveSucceeded env source fs = true)
    ∧ ((archiveSingleFile env now source archiveDir batchId fs db).ok = true →
        moveSucceeded env source fs = true) := by
  obtain ⟨rn, cp, rm⟩ := env
  unfold archiveSingleFile moveSucceeded
  cases hdest : resolveDest fs archiveDir source with
  | none => simp
  | some dest =>
      by_cases hs : source ∈ fs <;>
        cases rn <;> cases cp <;> cases rm <;>
          simp [hs] <;>
            cases hlog : logArchiveAction now source dest batchId db <;> simp [hlog]

/-- Concrete instantiation of C10: with both the rename and the fallback
failing, the store comes back unchanged. -/
theorem archive_mutates_store_only_after_move_witness :
    (archiveSingleFile ⟨false, false, false⟩ 0 "s" "A" "b" ["s"] dbC3).db = dbC3 :=
  (archive_mutates_store_only_after_move ⟨false, false, false⟩ 0 "s" "A" "b" ["s"] dbC3).1
    (by decide)

theorem selectFromBucket_length_le (now : Time) (sc : Scorer)
    (bfiles : List FileRow) (cap : Nat) (reason : String) :
    (selectFromBucket now sc bfiles cap reason).length ≤ cap := by
  simp only [selectFromBucket, List.length_map, List.length_take]
  exact min_le_left _ _

theorem selectFromBucket_nil (now : Time) (sc : Scorer) (cap : Nat)
    (reason : String) : selectFromBucket now sc [] cap reason = [] := by
  simp [selectFromBucket]

theorem selectFromBucket_singleton (now : Time) (sc : Scorer) (f : FileRow)
    (cap : Nat) (reason : String) (hcap : 1 ≤ cap) :
    selectFromBucket now sc [f] cap reason = [mkCandidate now sc reason f] := by
  unfold selectFromBucket
  simp only [List.map_cons, List.map_nil]
  rw [List.perm_singleton.mp (List.mergeSort_perm _ _)]
  match cap, hcap with
  | n + 1, _ => simp

/-- Claim C2: potential_today equals the sum of sizes of the candidates the
selector emits under the global cap 1000, and that list is a permutation of
the whole ranked pool (the concatenation of the four capped bucket
selections, at most 12 candidates), so no global truncation occurs and the
gauge reflects the whole pool.  Quantified over every scorer, hence valid
for the concrete floating-point scorer. -/
theorem potential_today_whole_pool (now : Time) (sc : Scorer)
    (files : List FileRow) :
    (dailyCandidates now sc 1000 files).Perm (fullCandidatePool now sc files)
    ∧ computePotentialToday now sc files
        = sumSizes (fullCandidatePool now sc files) := by
  have hlen : (fullCandidatePool now sc files).length ≤ 12 := by
    have h1 := selectFromBucket_length_le now sc (bucketFiles now files).screenshots 5
      "Screenshots"
    have h2 := selectFromBucket_length_le now sc (bucketFiles now files).bigDownloads 3
      "Big Downloads"
    have h3 := selectFromBucket_length_le now sc (bucketFiles now files).oldDesktop 2
      "Old Desktop"
    have h4 := selectFromBucket_length_le now sc (bucketFiles now files).duplicates 2
      "Duplicates"
    simp only [fullCandidatePool, List.length_append]
    omega
  have hperm : ((fullCandidatePool now sc files).mergeSort
      (fun x y => decide (y.score ≤ x.score))).Perm (fullCandidatePool now sc files) :=
    List.mergeSort_perm _ _
  have hlen2 : ((fullCandidatePool now sc files).mergeSort
      (fun x y => decide (y.score ≤ x.score))).length ≤ 12 := by
    rw [hperm.length_eq]
    exact hlen
  have hdaily : dailyCandidates now sc 1000 files
      = (fullCandidatePool now sc files).mergeSort
          (fun x y => decide (y.score ≤ x.score)) := by
    show ((fullCandidatePool now sc files).mergeSort
        (fun x y => decide (y.score ≤ x.score))).take (min 1000 12) = _
    rw [show min 1000 12 = 12 from rfl]
    exact List.take_of_length_le hlen2
  refine ⟨hdaily ▸ hperm, ?_⟩
  show sumSizes (dailyCandidates now sc 1000 files) = _
  rw [hdaily]
  exact List.Perm.sum_eq (hperm.map (fun c => c.sizeBytes))

/-- Concrete instantiation of C2 at the one-file store. -/
theorem potential_today_whole_pool_witness :
    computePotentialToday 8640000 zeroScorer [fileC5]
      = sumSizes (fullCandidatePool 8640000 zeroScorer [fileC5]) :=
  (potential_today_whole_pool 8640000 zeroScorer [fileC5]).2

/-- Claim C5 fails on the code: a 100-day-old screenshot on the desktop
lands in both the screenshot bucket and the old-desktop bucket, and
select_candidates concatenates the bucket winners without removing
duplicate file ids, so the emitted list carries file id 1 twice (for any
scorer, since both bucket caps exceed one and the global cap exceeds
two). -/
theorem selector_duplicate_ids_counterexample : ¬ selectorClaimHolds := by
  intro h
  have hc := h 8640000 zeroScorer [fileC5] 12
  have hbucket : bucketFiles 8640000 [fileC5] =
      ⟨[fileC5], [], [fileC5], []⟩ := by decide
  have hcands : dailyCandidates 8640000 zeroScorer 12 [fileC5]
      = (([mkCandidate 8640000 zeroScorer "Screenshots" fileC5,
           mkCandidate 8640000 zeroScorer "Old Desktop" fileC5]).mergeSort
          (fun x y => decide (y.score ≤ x.score))).take (min 12 12) := by
    show selectCandidates 8640000 zeroScorer defaultBucketConfig
        (bucketFiles 8640000 [fileC5]) 12 = _
    rw [hbucket]
    unfold selectCandidates
    rw [selectFromBucket_singleton 8640000 zeroScorer fileC5 _ "Screenshots" (by decide),
      selectFromBucket_singleton 8640000 zeroScorer fileC5 _ "Old Desktop" (by decide),
      selectFromBucket_nil, selectFromBucket_nil]
    rfl
  have hperm : (dailyCandidates 8640000 zeroScorer 12 [fileC5]).Perm
      [mkCandidate 8640000 zeroScorer "Screenshots" fileC5,
       mkCandidate 8640000 zeroScorer "Old Desktop" fileC5] := by
    rw [hcands]
    have hp := List.mergeSort_perm
      [mkCandidate 8640000 zeroScorer "Screenshots" fileC5,
       mkCandidate 8640000 zeroScorer "Old Desktop" fileC5]
      (fun x y => decide (y.score ≤ x.score))
    have hlen2 : (([mkCandidate 8640000 zeroScorer "Screenshots" fileC5,
        mkCandidate 8640000 zeroScorer "Old Desktop" fileC5]).mergeSort
          (fun x y => decide (y.score ≤ x.score))).length ≤ min 12 12 := by
      rw [hp.length_eq]
      norm_num
    rw [List.take_of_length_le hlen2]
    exact hp
  have hmap : ((dailyCandidates 8640000 zeroScorer 12 [fileC5]).map
      (fun c => c.fileId)).Perm [1, 1] := hperm.map (fun c => c.fileId)
  exact absurd (hmap.nodup_iff.mp hc) (by decide)

theorem count_fileId_selectFromBucket_le (now : Time) (sc : Scorer)
    (bfiles : List FileRow) (cap : Nat) (reason : String) (fid : Int) :
    ((selectFromBucket now sc bfiles cap reason).map (fun c => c.fileId)).count fid
      ≤ (bfiles.map (fun f => f.id)).count fid := by
  unfold selectFromBucket
  rw [List.map_map]
  have hsub : List.Sublist
      (((bfiles.map (fun f => (mkCandidate now sc reason f, f.lastSeenAt))).mergeSort
        (fun x y => decide (y.1.score < x.1.score)
          || (decide (y.1.score = x.1.score) && decide (y.2 ≤ x.2)))).take cap)
      ((bfiles.map (fun f => (mkCandidate now sc reason f, f.lastSeenAt))).mergeSort
        (fun x y => decide (y.1.score < x.1.score)
          || (decide (y.1.score = x.1.score) && decide (y.2 ≤ x.2)))) :=
    List.take_sublist _ _
  have h1 := (hsub.map (fun p => ((fun c => c.fileId) ∘ (fun p => p.1)) p)).count_le fid
  refine le_trans h1 ?_
  have hperm := (List.mergeSort_perm
    (bfiles.map (fun f => (mkCandidate now sc reason f, f.lastSeenAt)))
    (fun x y => decide (y.1.score < x.1.score)
      || (decide (y.1.score = x.1.score) && decide (y.2 ≤ x.2)))).map
    (fun p => ((fun c => c.fileId) ∘ (fun p => p.1)) p)
  rw [hperm.count_eq]
  rw [List.map_map]
  exact le_of_eq (by rfl)

/-- Claim C5 amended: when the live file entries have distinct ids, the
emitted candidate list repeats a file id at most once per bucket, hence at
most four times; duplicates across buckets are possible, duplicates within
one bucket are not. -/
theorem selector_candidate_multiplicity (now : Time) (sc : Scorer)
    (files : List FileRow) (maxTotal : Nat) (fid : Int)
    (hIds : (files.map (fun f => f.id)).Nodup) :
    ((dailyCandidates now sc maxTotal files).map (fun c => c.fileId)).count fid ≤ 4 := by
  have hbucket : ∀ (p : FileRow → Bool),
      ((files.filter p).map (fun f => f.id)).count fid ≤ 1 := by
    intro p
    have hsub : List.Sublist ((files.filter p).map (fun f => f.id))
        (files.map (fun f => f.id)) :=
      (List.filter_sublist files).map _
    exact List.nodup_iff_count_le_one.mp (hIds.sublist hsub) fid
  have hsub : List.Sublist (dailyCandidates now sc maxTotal files)
      ((selectFromBucket now sc (bucketFiles now files).screenshots 5 "Screenshots"
        ++ selectFromBucket now sc (bucketFiles now files).bigDownloads 3 "Big Downloads"
        ++ selectFromBucket now sc (bucketFiles now files).oldDesktop 2 "Old Desktop"
        ++ selectFromBucket now sc (bucketFiles now files).duplicates 2 "Duplicates").mergeSort
        (fun x y => decide (y.score ≤ x.score))) :=
    List.take_sublist _ _
  have h1 := ((hsub.map (fun c => c.fileId)).count_le fid)
  refine le_trans h1 ?_
  have hperm := (List.mergeSort_perm
    (selectFromBucket now sc (bucketFiles now files).screenshots 5 "Screenshots"
      ++ selectFromBucket now sc (bucketFiles now files).bigDownloads 3 "Big Downloads"
      ++ selectFromBucket now sc (bucketFiles now files).oldDesktop 2 "Old Desktop"
      ++ selectFromBucket now sc (bucketFiles now files).duplicates 2 "Duplicates")
    (fun x y => decide (y.score ≤ x.score))).map (fun c => c.fileId)
  rw [hperm.count_eq]
  simp only [List.map_append, List.count_append]
  have hs := count_fileId_selectFromBucket_le now sc (bucketFiles now files).screenshots
    5 "Screenshots" fid
  have hb := count_fileId_selectFromBucket_le now sc (bucketFiles now files).bigDownloads
    3 "Big Downloads" fid
  have ho := count_fileId_selectFromBucket_le now sc (bucketFiles now files).oldDesktop
    2 "Old Desktop" fid
  have hd := count_fileId_selectFromBucket_le now sc (bucketFiles now files).duplicates
    2 "Duplicates" fid
  have c1 := hbucket isScreenshot
  have c2 := hbucket (isBigDownload now)
  have c3 := hbucket (isOldDesktop now)
  have c4 := hbucket (isDuplicateFile files)
  simp only [bucketFiles] at hs hb ho hd
  simp only [bucketFiles]
  omega

/-- Concrete instantiation of the amended C5 bound. -/
theorem selector_candidate_multiplicity_witness :
    ((dailyCandidates 8640000 zeroScorer 12 [fileC5]).map
      (fun c => c.fileId)).count 1 ≤ 4 :=
  selector_candidate_multiplicity 8640000 zeroScorer [fileC5] 12 1 (by decide)

theorem hexChar_mem (d : Nat) : hexChar d ∈ "0123456789abcdef".data := by
  by_cases h : d < 16
  · interval_cases d <;> decide
  · have hlen : ("0123456789abcdef".data).length ≤ d := by
      have : ("0123456789abcdef".data).length = 16 := by decide
      omega
    unfold hexChar
    rw [List.getD_eq_default _ _ hlen]
    decide

theorem mem_wordHex (w : Nat) : ∀ c ∈ wordHex w, c ∈ "0123456789abcdef".data := by
  intro c hc
  obtain ⟨i, _, hi⟩ := List.mem_map.mp hc
  rw [← hi]
  exact hexChar_mem _

theorem wordHex_length (w : Nat) : (wordHex w).length = 8 := by
  simp [wordHex]

set_option maxRecDepth 100000 in
/-- Claim C9: the head sample of a readable file is the lowercase-hex SHA-1
digest of exactly the first min(262144, length) bytes: hashing the first
262144 bytes equals hashing the min-truncated prefix, every digest
character is a lowercase hex digit, the digest has 40 characters, and the
empty file yields the SHA-1 digest of the empty input,
da39a3ee5e6b4b0d3255bfef95601890afd80709. -/
theorem hash_first_n_head_sample (content : List Nat) :
    hashFirstN content 262144 = sha1Hex (content.take (min 262144 content.length))
    ∧ (∀ c ∈ (hashFirstN content 262144).data, c ∈ "0123456789abcdef".data)
    ∧ (hashFirstN content 262144).length = 40
    ∧ hashFirstN [] 262144 = sha1Hex []
    ∧ sha1Hex [] = "da39a3ee5e6b4b0d3255bfef95601890afd80709" := by
  have htake : content.take (min 262144 content.length) = content.take 262144 := by
    rw [← List.take_take, List.take_length]
  have hdata : ∀ (msg : List Nat), ∃ a b c d e,
      (sha1Hex msg).data =
        wordHex a ++ wordHex b ++ wordHex c ++ wordHex d ++ wordHex e := by
    intro msg
    unfold sha1Hex
    obtain ⟨a, b, c, d, e⟩ := sha1Bytes msg
    exact ⟨a, b, c, d, e, rfl⟩
  refine ⟨by rw [hashFirstN, htake], ?_, ?_, rfl, by decide⟩
  · intro c hc
    obtain ⟨a, b, c', d, e, hdd⟩ := hdata (content.take 262144)
    rw [hashFirstN, hdd] at hc
    simp only [List.mem_append] at hc
    rcases hc with ((((h | h) | h) | h) | h)
    · exact mem_wordHex _ _ h
    · exact mem_wordHex _ _ h
    · exact mem_wordHex _ _ h
    · exact mem_wordHex _ _ h
    · exact mem_wordHex _ _ h
  · obtain ⟨a, b, c', d, e, hdd⟩ := hdata (content.take 262144)
    have : (hashFirstN content 262144).length =
        ((hashFirstN content 262144).data).length := rfl
    rw [this, hashFirstN, hdd]
    simp [wordHex_length]

set_option maxRecDepth 100000 in
/-- Concrete instantiation of C9 on a two-byte file. -/
theorem hash_first_n_head_sample_witness :
    hashFirstN [104, 105] 262144
      = sha1Hex ([104, 105].take (min 262144 ([104, 105] : List Nat).length)) :=
  (hash_first_n_head_sample [104, 105]).1

end WhiteSpace
